import Mathlib

/-!
Verification of the uppies update orchestrator.

Strings from the Rust source are modelled as `List Char` (Rust `str` is a
sequence of Unicode scalar values; all identifiers relevant to comparison are
ASCII, where char-wise and byte-wise orders agree).
-/

namespace Uppies

/-- Rust `char::is_whitespace`: the Unicode White_Space property. -/
def isRustWhitespace (c : Char) : Bool :=
  c.toNat = 0x09 || c.toNat = 0x0A || c.toNat = 0x0B || c.toNat = 0x0C ||
  c.toNat = 0x0D || c.toNat = 0x20 || c.toNat = 0x85 || c.toNat = 0xA0 ||
  c.toNat = 0x1680 || (0x2000 ≤ c.toNat && c.toNat ≤ 0x200A) ||
  c.toNat = 0x2028 || c.toNat = 0x2029 || c.toNat = 0x202F ||
  c.toNat = 0x205F || c.toNat = 0x3000

/-- Rust `str::trim`: drop leading and trailing whitespace. -/
def rustTrim (l : List Char) : List Char :=
  ((l.dropWhile isRustWhitespace).reverse.dropWhile isRustWhitespace).reverse

/-- Rust `str::trim_start_matches(c)`: drop every leading occurrence of `c`. -/
def trimStartMatchesChar (c : Char) (l : List Char) : List Char :=
  l.dropWhile (fun d => d == c)

/-- From src/lib.rs: `pub fn trim_version(version: &str) -> &str {
version.trim().trim_start_matches('v') }`. -/
def trim_version (version : List Char) : List Char :=
  trimStartMatchesChar 'v' (rustTrim version)

/-- Rust `u8::is_ascii_digit`, applied to an ASCII char. -/
def isDigitChar (c : Char) : Bool :=
  48 ≤ c.toNat && c.toNat ≤ 57

/-- Identifier characters accepted by the semver crate: ASCII alphanumeric
or hyphen. -/
def isIdentChar (c : Char) : Bool :=
  isDigitChar c || (65 ≤ c.toNat && c.toNat ≤ 90) ||
    (97 ≤ c.toNat && c.toNat ≤ 122) || c == '-'

def digitVal (c : Char) : Nat := c.toNat - 48

/-- Numeric value of a decimal digit string (value computed by the semver
crate when parsing a numeric component). -/
def digitsToNat : List Char → Nat
  | [] => 0
  | c :: cs => digitVal c * 10 ^ cs.length + digitsToNat cs

/-- Largest value of a Rust `u64`; the semver crate stores the major, minor
and patch components as `u64` and fails on overflow. -/
def U64MAX : Nat := 18446744073709551615

/-- Parse one numeric version component (semver crate `numeric_identifier`):
a nonempty run of ASCII digits, no leading zero unless the component is
exactly `0`, value must fit in a `u64`. Returns the value and the rest of
the input. -/
def parseNumPart (l : List Char) : Option (Nat × List Char) :=
  match l.takeWhile isDigitChar with
  | [] => none
  | c :: tl =>
    if c == '0' && !tl.isEmpty then none
    else if digitsToNat (c :: tl) ≤ U64MAX then
      some (digitsToNat (c :: tl), l.dropWhile isDigitChar)
    else none

/-- Rust `str::split('.')`: splitting the empty string yields one empty
chunk. -/
def splitDots : List Char → List (List Char)
  | [] => [[]]
  | '.' :: rest => [] :: splitDots rest
  | c :: rest =>
    match splitDots rest with
    | [] => [[c]]
    | g :: gs => (c :: g) :: gs

/-- A valid pre-release identifier per the semver crate: nonempty,
alphanumeric/hyphen characters, and an all-digit identifier must not have a
leading zero (unless it is exactly `0`). -/
def validPreId (id : List Char) : Bool :=
  !id.isEmpty && id.all isIdentChar &&
    (if id.all isDigitChar then (id.length == 1 || id.head? != some '0')
     else true)

/-- A valid build-metadata identifier per the semver crate: nonempty,
alphanumeric/hyphen characters (leading zeros allowed). -/
def validBuildId (id : List Char) : Bool :=
  !id.isEmpty && id.all isIdentChar

def parsePre (l : List Char) : Option (List (List Char)) :=
  if (splitDots l).all validPreId then some (splitDots l) else none

def parseBuild (l : List Char) : Option (List (List Char)) :=
  if (splitDots l).all validBuildId then some (splitDots l) else none

/-- A parsed `semver::Version`: major/minor/patch plus the pre-release and
build-metadata identifier lists (the crate stores the raw strings and splits
them on `.` when comparing; identifiers never contain `.`, so the lists
carry the same information). -/
structure SemVersion where
  major : Nat
  minor : Nat
  patch : Nat
  pre : List (List Char)
  build : List (List Char)
deriving DecidableEq

/-- `semver::Version::parse`: `major.minor.patch` with optional
`-prerelease` and `+build` suffixes, nothing else before or after. -/
def parseVersion (s : List Char) : Option SemVersion :=
  match parseNumPart s with
  | none => none
  | some (maj, r1) =>
    match r1 with
    | '.' :: r2 =>
      match parseNumPart r2 with
      | none => none
      | some (minr, r3) =>
        match r3 with
        | '.' :: r4 =>
          match parseNumPart r4 with
          | none => none
          | some (pat, r5) =>
            match r5 with
            | [] => some ⟨maj, minr, pat, [], []⟩
            | '-' :: r6 =>
              match parsePre (r6.takeWhile (fun c => c != '+')) with
              | none => none
              | some pre =>
                match r6.dropWhile (fun c => c != '+') with
                | [] => some ⟨maj, minr, pat, pre, []⟩
                | _ :: b =>
                  match parseBuild b with
                  | none => none
                  | some bld => some ⟨maj, minr, pat, pre, bld⟩
            | '+' :: r6 =>
              match parseBuild r6 with
              | none => none
              | some bld => some ⟨maj, minr, pat, [], bld⟩
            | _ => none
        | _ => none
    | _ => none

/-- Three-way comparison of naturals (`Ord` on Rust `u64`). -/
def natCmp (a b : Nat) : Ordering :=
  if a < b then .lt else if a = b then .eq else .gt

/-- `Ord` on chars by scalar value (equals byte order on ASCII). -/
def chCmp (a b : Char) : Ordering := natCmp a.toNat b.toNat

/-- Rust `str::cmp`: lexicographic. -/
def lexCmp : List Char → List Char → Ordering
  | [], [] => .eq
  | [], _ :: _ => .lt
  | _ :: _, [] => .gt
  | a :: xs, b :: ys =>
    match chCmp a b with
    | .eq => lexCmp xs ys
    | o => o

/-- One pre-release identifier pair, as compared inside the semver crate
`Ord for Prerelease` loop: numeric identifiers by (length, lexicographic) —
equal to numeric order given no leading zeros — numeric below alphanumeric,
alphanumeric lexicographic. -/
def preIdCmp (a b : List Char) : Ordering :=
  match a.all isDigitChar, b.all isDigitChar with
  | true, true => (natCmp a.length b.length).then (lexCmp a b)
  | true, false => .lt
  | false, true => .gt
  | false, false => lexCmp a b

def preListCmp : List (List Char) → List (List Char) → Ordering
  | [], [] => .eq
  | [], _ :: _ => .lt
  | _ :: _, [] => .gt
  | a :: xs, b :: ys =>
    match preIdCmp a b with
    | .eq => preListCmp xs ys
    | o => o

/-- Semver crate `Ord for Prerelease`: an empty pre-release (a real release)
compares greater than any nonempty one; otherwise identifier lists are
compared element-wise, a strict prefix comparing less. -/
def preCmp (a b : List (List Char)) : Ordering :=
  match a, b with
  | [], [] => .eq
  | [], _ :: _ => .gt
  | _ :: _, [] => .lt
  | _, _ => preListCmp a b

/-- One build-metadata identifier pair, as compared inside the semver crate
`Ord for BuildMetadata` loop (leading zeros possible: value first, then
more leading zeros compare greater). -/
def buildIdCmp (a b : List Char) : Ordering :=
  match a.all isDigitChar, b.all isDigitChar with
  | true, true =>
    ((natCmp (a.dropWhile (fun c => c == '0')).length
        (b.dropWhile (fun c => c == '0')).length).then
      (lexCmp (a.dropWhile (fun c => c == '0'))
        (b.dropWhile (fun c => c == '0')))).then
      (natCmp a.length b.length)
  | true, false => .lt
  | false, true => .gt
  | false, false => lexCmp a b

/-- Semver crate `Ord for BuildMetadata` (the empty metadata, splitting to
one empty all-digit chunk, compares below any nonempty metadata, matching
the crate on the list representation). -/
def buildCmp : List (List Char) → List (List Char) → Ordering
  | [], [] => .eq
  | [], _ :: _ => .lt
  | _ :: _, [] => .gt
  | a :: xs, b :: ys =>
    match buildIdCmp a b with
    | .eq => buildCmp xs ys
    | o => o

/-- Semver crate `Ord for Version`: major, minor, patch, pre-release, then
build metadata. Note the crate orders by build metadata, unlike SemVer
precedence. -/
def versionCmp (x y : SemVersion) : Ordering :=
  (natCmp x.major y.major).then ((natCmp x.minor y.minor).then
    ((natCmp x.patch y.patch).then
      ((preCmp x.pre y.pre).then (buildCmp x.build y.build))))

/-- Rust `l < r` on `semver::Version`. -/
def versionLt (x y : SemVersion) : Bool := versionCmp x y == Ordering.lt

/-- src/version.rs `CompareMode`. -/
inductive CompareMode where
  | string
  | semver
deriving DecidableEq

/-- Result of src/version.rs `needs_update` (`anyhow::Result<bool>`). -/
inductive VResult where
  | ok (b : Bool)
  | err (msg : List Char)
deriving DecidableEq

/-- The error message built by `needs_update` in src/version.rs:
`failed to parse semver (local: {local_ver}, remote: {remote_ver})`. -/
def semverFailMsg (localVer remoteVer : List Char) : List Char :=
  "failed to parse semver (local: ".data ++ localVer ++
    ", remote: ".data ++ remoteVer ++ ")".data

/-- src/version.rs `needs_update`. -/
def needs_update (mode : CompareMode) (localVer remoteVer : List Char) :
    VResult :=
  match mode with
  | .string => .ok (localVer != remoteVer)
  | .semver =>
    match parseVersion localVer, parseVersion remoteVer with
    | some l, some r => .ok (versionLt l r)
    | _, _ => .err (semverFailMsg localVer remoteVer)

/-- `l` occurs contiguously inside `msg`. -/
def occursIn (l msg : List Char) : Prop :=
  ∃ s t, msg = s ++ l ++ t

/-! Spec-side ordering, for the refinement claims only. Modelled from the
words of spec section 4.3: standard SemVer precedence — numeric comparison
of major/minor/patch, then pre-release precedence rules (all-digit
identifiers compared numerically, numeric below alphanumeric, alphanumeric
lexically, a shorter identifier list below a longer one with equal prefix,
no pre-release above any pre-release), build metadata ignored. -/

def specPreIdCmp (a b : List Char) : Ordering :=
  match a.all isDigitChar, b.all isDigitChar with
  | true, true => natCmp (digitsToNat a) (digitsToNat b)
  | true, false => .lt
  | false, true => .gt
  | false, false => lexCmp a b

def specPreListCmp : List (List Char) → List (List Char) → Ordering
  | [], [] => .eq
  | [], _ :: _ => .lt
  | _ :: _, [] => .gt
  | a :: xs, b :: ys =>
    match specPreIdCmp a b with
    | .eq => specPreListCmp xs ys
    | o => o

def specPreCmp (a b : List (List Char)) : Ordering :=
  match a, b with
  | [], [] => .eq
  | [], _ :: _ => .gt
  | _ :: _, [] => .lt
  | _, _ => specPreListCmp a b

/-- Standard SemVer precedence per the spec: build metadata ignored. -/
def specVersionCmp (x y : SemVersion) : Ordering :=
  (natCmp x.major y.major).then ((natCmp x.minor y.minor).then
    ((natCmp x.patch y.patch).then (specPreCmp x.pre y.pre)))

/-- `x` strictly below `y` under standard SemVer precedence. -/
def specSemverLt (x y : SemVersion) : Bool :=
  specVersionCmp x y == Ordering.lt

/-! ### The update loop of src/main.rs -/

/-- src/lib.rs `ScriptResult`. -/
structure ScriptResult where
  stdout : List Char
  exitCode : Int
deriving DecidableEq

/-- The behaviour of `run_script` for each command string: `none` models the
`io::Result` error case (the shell could not be launched), `some` a run that
produced captured stdout and an exit code. -/
def Env := List Char → Option ScriptResult

/-- One configured app as the update loop of src/main.rs consumes it: the
name and the three command strings (each `ScriptConfig` already resolved to
its command string), plus the compare mode. -/
structure App where
  name : List Char
  localScript : List Char
  remoteScript : List Char
  updateScript : List Char
  compareMode : CompareMode

/-- The inline update-needed computation of the `Check` arm of src/main.rs
(lines 95-111), applied to the two `trim_version`-ed script outputs: `none`
models the `continue` on a semver parse failure. Both sides get a further
`trim_start_matches('v')` before `Version::parse`. -/
def checkComputeNeedsUpdate (mode : CompareMode) (localVer remoteVer : List Char) :
    Option Bool :=
  match mode with
  | .string => some (localVer != remoteVer)
  | .semver =>
    match parseVersion (trimStartMatchesChar 'v' localVer),
        parseVersion (trimStartMatchesChar 'v' remoteVer) with
    | some l, some r => some (versionLt l r)
    | _, _ => none

/-- The inline update-needed computation of the `Update` arm of src/main.rs
(lines 160-176), same shape as in the `Check` arm. -/
def updateComputeNeedsUpdate (mode : CompareMode) (localVer remoteVer : List Char) :
    Option Bool :=
  match mode with
  | .string => some (localVer != remoteVer)
  | .semver =>
    match parseVersion (trimStartMatchesChar 'v' localVer),
        parseVersion (trimStartMatchesChar 'v' remoteVer) with
    | some l, some r => some (versionLt l r)
    | _, _ => none

/-- Per-app outcome of the update loop, read off the printed messages of
src/main.rs. -/
inductive AppOutcome where
  | failedLocal
  | failedRemote
  | failedParse
  | upToDate
  | updated
  | failedUpdate
  | skipped
deriving DecidableEq

/-- `true` when the `Ok(res) if res.exit_code == 0` arm is NOT taken:
launch failure or nonzero exit. -/
def scriptFailed (r : Option ScriptResult) : Bool :=
  match r with
  | none => true
  | some res => res.exitCode != 0

/-- The `if should_update` block of the `Update` arm (src/main.rs lines
186-196): run the update script, zero exit prints `update complete`,
anything else `update script failed`. The second component is the trace of
scripts invoked, in order, with `tr` the invocations made before it. -/
def runUpdateStep (env : Env) (a : App) (tr : List (List Char)) :
    AppOutcome × List (List Char) :=
  match env a.updateScript with
  | some res =>
    if res.exitCode = 0 then (.updated, tr ++ [a.updateScript])
    else (.failedUpdate, tr ++ [a.updateScript])
  | none => (.failedUpdate, tr ++ [a.updateScript])

/-- One iteration of the `Update` loop body of src/main.rs (lines 139-196)
after the name filter: with `force` the version scripts are skipped and the
update script runs; otherwise local then remote are run, their outputs
trimmed and compared, and the update script runs only when an update is
needed. Returns the outcome and the trace of scripts invoked in order. -/
def processApp (env : Env) (force : Bool) (a : App) :
    AppOutcome × List (List Char) :=
  if force then runUpdateStep env a []
  else
    match env a.localScript with
    | none => (.failedLocal, [a.localScript])
    | some lr =>
      if lr.exitCode = 0 then
        match env a.remoteScript with
        | none => (.failedRemote, [a.localScript, a.remoteScript])
        | some rr =>
          if rr.exitCode = 0 then
            match updateComputeNeedsUpdate a.compareMode
                (trim_version lr.stdout) (trim_version rr.stdout) with
            | none => (.failedParse, [a.localScript, a.remoteScript])
            | some true =>
              runUpdateStep env a [a.localScript, a.remoteScript]
            | some false => (.upToDate, [a.localScript, a.remoteScript])
          else (.failedRemote, [a.localScript, a.remoteScript])
      else (.failedLocal, [a.localScript])

/-- The name filter at the top of the loop body (src/main.rs lines
133-137). -/
def matchesFilter (filter : Option (List Char)) (a : App) : Bool :=
  match filter with
  | none => true
  | some t => a.name == t

/-- The whole `for app in config.apps` loop of the `Update` arm. -/
def processApps (env : Env) (force : Bool) (filter : Option (List Char)) :
    List App → List (AppOutcome × List (List Char))
  | [] => []
  | a :: rest =>
    (if matchesFilter filter a then processApp env force a
     else (.skipped, [])) :: processApps env force filter rest

/-! ### The self-update version strings of src/main.rs -/

/-- The string handed to `Version::parse` for the latest release in the
`SelfUpdate` arm (src/main.rs line 206): the release tag after
`trim_start_matches('v')` only. -/
def latestVersionParseInput (tagName : List Char) : List Char :=
  trimStartMatchesChar 'v' tagName

/-- The string handed to `Version::parse` for the running binary in the
`SelfUpdate` arm (src/main.rs lines 202, 211): the embedded
`CARGO_PKG_VERSION` constant, unmodified. -/
def currentVersionParseInput (embedded : List Char) : List Char :=
  embedded

/-! ### The atomic replacement protocol of src/self_update.rs -/

/-- A regular file: contents (bytes) and permission mode. -/
structure FsFile where
  data : List Nat
  mode : Nat
deriving DecidableEq

/-- A filesystem: paths to files. -/
def FS := List Char → Option FsFile

/-- Point update of a filesystem. -/
def fsUpdate (fs : FS) (p : List Char) (v : Option FsFile) : FS :=
  fun q => if q = p then v else fs q

/-- `format!("{}.backup", current_binary_path)`. -/
def backupPath (cur : List Char) : List Char := cur ++ ".backup".data

/-- `format!("{}.new", current_binary_path)`. -/
def stagedPath (cur : List Char) : List Char := cur ++ ".new".data

/-- The filesystem operations of `replace_binary` that can fail for an
external reason (permissions, disk, ...) even when their preconditions
hold; the oracle says which of them do. -/
inductive RBStep where
  | copyBackup
  | copyStaged
  | readMeta
  | setPerms
  | renameStep
deriving DecidableEq

/-- The state of the filesystem at `p` after `replace_binary` returned,
whether with `Ok` or with `Err`. -/
def fsAt (r : Except FS FS) (p : List Char) : Option FsFile :=
  match r with
  | .error e => e p
  | .ok s => s p

def isErr (r : Except FS FS) : Bool :=
  match r with
  | .error _ => true
  | .ok _ => false

/-- src/self_update.rs `replace_binary`, lines 102-119: everything before
the final rename. `let _ = fs::remove_file(backup)` drops the backup if
present (its result is ignored); `fs::copy(cur, backup)` and
`fs::copy(new, staged)` copy contents and permission bits, failing when the
source is missing or when the oracle fails the step;
`fs::metadata`/`fs::set_permissions` read the staged file and set its mode
to `0o755`. An `Err` carries the filesystem at the moment of failure. -/
def replaceBinaryStage (fail : RBStep → Bool) (newp cur : List Char)
    (fs : FS) : Except FS FS :=
  match fsUpdate fs (backupPath cur) none cur with
  | none => .error (fsUpdate fs (backupPath cur) none)
  | some f =>
    if fail .copyBackup then .error (fsUpdate fs (backupPath cur) none)
    else
      match fsUpdate (fsUpdate fs (backupPath cur) none) (backupPath cur)
          (some f) newp with
      | none =>
        .error (fsUpdate (fsUpdate fs (backupPath cur) none)
          (backupPath cur) (some f))
      | some g =>
        if fail .copyStaged then
          .error (fsUpdate (fsUpdate fs (backupPath cur) none)
            (backupPath cur) (some f))
        else
          match fsUpdate (fsUpdate (fsUpdate fs (backupPath cur) none)
              (backupPath cur) (some f)) (stagedPath cur) (some g)
              (stagedPath cur) with
          | none =>
            .error (fsUpdate (fsUpdate (fsUpdate fs (backupPath cur) none)
              (backupPath cur) (some f)) (stagedPath cur) (some g))
          | some h =>
            if fail .readMeta || fail .setPerms then
              .error (fsUpdate (fsUpdate (fsUpdate fs (backupPath cur) none)
                (backupPath cur) (some f)) (stagedPath cur) (some g))
            else
              .ok (fsUpdate (fsUpdate (fsUpdate (fsUpdate fs
                (backupPath cur) none) (backupPath cur) (some f))
                (stagedPath cur) (some g)) (stagedPath cur)
                (some ⟨h.data, 0o755⟩))

/-- src/self_update.rs `replace_binary`, lines 102-124: the staging steps
followed by `fs::rename(staged, cur)`, which removes the staged path and
installs its file at the target path atomically. -/
def replace_binary (fail : RBStep → Bool) (newp cur : List Char) (fs : FS) :
    Except FS FS :=
  match replaceBinaryStage fail newp cur fs with
  | .error e => .error e
  | .ok fs4 =>
    match fs4 (stagedPath cur) with
    | none => .error fs4
    | some h2 =>
      if fail .renameStep then .error fs4
      else .ok (fsUpdate (fsUpdate fs4 (stagedPath cur) none) cur (some h2))

/-! ### Concrete inputs used by the witnesses -/

/-- `true` when the list is empty or starts with a non-whitespace char. -/
def headNotWs (l : List Char) : Bool :=
  match l with
  | [] => true
  | c :: _ => !isRustWhitespace c

/-- Oracle under which no filesystem operation fails spuriously. -/
def rbNoFail : RBStep → Bool := fun _ => false

/-- The empty filesystem. -/
def fsEmpty : FS := fun _ => none

def wOldFile : FsFile := ⟨[1], 7⟩

def wNewFile : FsFile := ⟨[2], 7⟩

def wCurPath : List Char := ['e']

def wNewPath : List Char := ['n']

/-- A filesystem holding a current executable and a new binary. -/
def wFs : FS :=
  fun p =>
    if p = wCurPath then some wOldFile
    else if p = wNewPath then some wNewFile else none

/-- Every script launch fails. -/
def envNone : Env := fun _ => none

/-- Every script succeeds with exit code 0 and empty output. -/
def envZero : Env := fun _ => some ⟨[], 0⟩

/-- Only the local script (command `l`) runs; everything else fails to
launch. -/
def envLocalOnly : Env :=
  fun s => if s = ['l'] then some ⟨"1.0.0".data, 0⟩ else none

/-- Every script prints `x` (not a semver) and exits 0. -/
def envGarbage : Env := fun _ => some ⟨"x".data, 0⟩

def wApp : App := ⟨['a'], ['l'], ['r'], ['u'], CompareMode.string⟩

def wAppSem : App := ⟨['a'], ['l'], ['r'], ['u'], CompareMode.semver⟩

def c6LocalStr : List Char := "1.2.3-alpha.1".data

def c6RemoteStr : List Char := "1.2.3".data

def c6LocalVer : SemVersion := ⟨1, 2, 3, ["alpha".data, "1".data], []⟩

def c6RemoteVer : SemVersion := ⟨1, 2, 3, [], []⟩

end Uppies

namespace Uppies

example : "ab".data = ['a', 'b'] := by decide

example : parseVersion "1.2.3".data = some ⟨1, 2, 3, [], []⟩ := by decide

example : parseVersion "v1.2.3".data = none := by decide

example : parseVersion "1.2.3\n".data = none := by decide

example : parseVersion "1.2.3-alpha.1+build.01".data =
    some ⟨1, 2, 3, ["alpha".data, "1".data], ["build".data, "01".data]⟩ := by
  decide

example : parseVersion "1.2.3-01".data = none := by decide

example : parseVersion "1.02.3".data = none := by decide

example : parseVersion "".data = none := by decide

example : versionLt ⟨1, 0, 0, [], ["a".data]⟩ ⟨1, 0, 0, [], ["b".data]⟩ = true := by
  decide

example : versionLt ⟨1, 0, 0, ["alpha".data], []⟩ ⟨1, 0, 0, [], []⟩ = true := by
  decide

example : versionLt ⟨1, 0, 0, [], []⟩ ⟨1, 0, 0, [], ["a".data]⟩ = true := by
  decide

example : versionLt ⟨2, 0, 0, [], []⟩ ⟨1, 9, 9, [], []⟩ = false := by decide

example : trim_version "v1.2.3\n".data = "1.2.3".data := by decide

example : trim_version "vv1.2.3".data = "1.2.3".data := by decide

example : trim_version "  v2.0.0  ".data = "2.0.0".data := by decide

example : trim_version "v 1".data = " 1".data := by decide

/-! ### Helper lemmas -/

theorem charToNat_inj {c d : Char} (h : c.toNat = d.toNat) : c = d :=
  Char.ext (UInt32.ext h)

theorem head?_dropWhile_false {p : Char → Bool} {l : List Char} {c : Char}
    (h : (l.dropWhile p).head? = some c) : p c = false := by
  have h2 := List.head?_dropWhile_not p l
  rw [h] at h2
  exact h2

theorem dropWhile_eq_self_of_head {p : Char → Bool} {l : List Char}
    (h : ∀ c, l.head? = some c → p c = false) : l.dropWhile p = l := by
  cases l with
  | nil => rfl
  | cons c cs =>
    have hc := h c rfl
    simp [List.dropWhile_cons, hc]

theorem getLast?_dropWhile (p : Char → Bool) (l : List Char) :
    l.dropWhile p = [] ∨ (l.dropWhile p).getLast? = l.getLast? := by
  induction l with
  | nil => exact Or.inl rfl
  | cons c cs ih =>
    by_cases hc : p c = true
    · rw [List.dropWhile_cons_of_pos hc]
      rcases ih with h | h
      · exact Or.inl h
      · cases cs with
        | nil => exact Or.inl (by simp_all [List.dropWhile])
        | cons d ds =>
          exact Or.inr (by rw [h, List.getLast?_cons_cons])
    · rw [List.dropWhile_cons_of_neg (by simpa using hc)]
      exact Or.inr rfl

theorem natCmp_eq_lt {a b : Nat} : natCmp a b = .lt ↔ a < b := by
  unfold natCmp
  split_ifs with h1 h2 <;> simp_all

theorem natCmp_eq_eq {a b : Nat} : natCmp a b = .eq ↔ a = b := by
  unfold natCmp
  split_ifs with h1 h2 <;> simp_all <;> omega

theorem natCmp_eq_gt {a b : Nat} : natCmp a b = .gt ↔ b < a := by
  unfold natCmp
  split_ifs with h1 h2 <;> simp_all <;> omega

theorem natCmp_add_left (x a b : Nat) :
    natCmp (x + a) (x + b) = natCmp a b := by
  unfold natCmp
  split_ifs <;> first | rfl | omega

theorem ordering_then_eq (o : Ordering) : o.then .eq = o := by
  cases o <;> rfl

theorem isDigitChar_bounds {c : Char} (h : isDigitChar c = true) :
    48 ≤ c.toNat ∧ c.toNat ≤ 57 := by
  simpa [isDigitChar, Bool.and_eq_true, decide_eq_true_eq] using h

theorem digitVal_le_nine {c : Char} (h : isDigitChar c = true) :
    digitVal c ≤ 9 := by
  have hb := isDigitChar_bounds h
  unfold digitVal
  omega

theorem digitsToNat_lt {l : List Char} (h : l.all isDigitChar = true) :
    digitsToNat l < 10 ^ l.length := by
  induction l with
  | nil => simp [digitsToNat]
  | cons c cs ih =>
    rw [List.all_cons, Bool.and_eq_true] at h
    have h9 := digitVal_le_nine h.1
    have ihh := ih h.2
    have hmul : digitVal c * 10 ^ cs.length ≤ 9 * 10 ^ cs.length :=
      Nat.mul_le_mul_right _ h9
    simp only [digitsToNat, List.length_cons, pow_succ]
    calc digitVal c * 10 ^ cs.length + digitsToNat cs
        < digitVal c * 10 ^ cs.length + 10 ^ cs.length :=
          Nat.add_lt_add_left ihh _
      _ ≤ 9 * 10 ^ cs.length + 10 ^ cs.length := Nat.add_le_add_right hmul _
      _ = 10 ^ cs.length * 10 := by ring

theorem pow_le_digitsToNat {c : Char} {cs : List Char}
    (hall : (c :: cs).all isDigitChar = true) (hc : c ≠ '0') :
    10 ^ cs.length ≤ digitsToNat (c :: cs) := by
  rw [List.all_cons, Bool.and_eq_true] at hall
  have hb := isDigitChar_bounds hall.1
  have h1 : 1 ≤ digitVal c := by
    unfold digitVal
    rcases Nat.lt_or_ge 48 c.toNat with h | h
    · omega
    · have h48 : c.toNat = 48 := by omega
      exact absurd (charToNat_inj (by rw [h48]; rfl)) hc
  calc 10 ^ cs.length = 1 * 10 ^ cs.length := (one_mul _).symm
    _ ≤ digitVal c * 10 ^ cs.length := Nat.mul_le_mul_right _ h1
    _ ≤ digitVal c * 10 ^ cs.length + digitsToNat cs := Nat.le_add_right _ _
    _ = digitsToNat (c :: cs) := rfl

theorem lexCmp_digits_eq_natCmp : ∀ {a b : List Char},
    a.all isDigitChar = true → b.all isDigitChar = true →
    a.length = b.length →
    lexCmp a b = natCmp (digitsToNat a) (digitsToNat b) := by
  intro a
  induction a with
  | nil =>
    intro b _ _ hlen
    cases b with
    | nil => rfl
    | cons d ds => simp at hlen
  | cons c cs ih =>
    intro b ha hb hlen
    cases b with
    | nil => simp at hlen
    | cons d ds =>
      rw [List.all_cons, Bool.and_eq_true] at ha hb
      rw [List.length_cons, List.length_cons] at hlen
      have hlen' : cs.length = ds.length := by omega
      have hbc := isDigitChar_bounds ha.1
      have hbd := isDigitChar_bounds hb.1
      rcases Nat.lt_trichotomy c.toNat d.toNat with hcd | hcd | hcd
      · have hch : chCmp c d = .lt := natCmp_eq_lt.mpr hcd
        simp only [lexCmp, hch]
        have hv : digitVal c < digitVal d := by unfold digitVal; omega
        symm
        rw [natCmp_eq_lt]
        have hra := digitsToNat_lt ha.2
        calc digitsToNat (c :: cs)
            = digitVal c * 10 ^ cs.length + digitsToNat cs := rfl
          _ < digitVal c * 10 ^ cs.length + 10 ^ cs.length :=
              Nat.add_lt_add_left hra _
          _ = (digitVal c + 1) * 10 ^ cs.length := by ring
          _ ≤ digitVal d * 10 ^ cs.length := Nat.mul_le_mul_right _ hv
          _ = digitVal d * 10 ^ ds.length := by rw [hlen']
          _ ≤ digitVal d * 10 ^ ds.length + digitsToNat ds :=
              Nat.le_add_right _ _
          _ = digitsToNat (d :: ds) := rfl
      · have hch : chCmp c d = .eq := natCmp_eq_eq.mpr hcd
        simp only [lexCmp, hch]
        have hv : digitVal c = digitVal d := by unfold digitVal; omega
        have : digitsToNat (c :: cs) = digitVal d * 10 ^ ds.length +
            digitsToNat cs := by
          simp only [digitsToNat, hv, hlen']
        rw [ih ha.2 hb.2 hlen', this]
        show natCmp (digitsToNat cs) (digitsToNat ds) =
          natCmp (digitVal d * 10 ^ ds.length + digitsToNat cs)
            (digitVal d * 10 ^ ds.length + digitsToNat ds)
        rw [natCmp_add_left]
      · have hch : chCmp c d = .gt := natCmp_eq_gt.mpr hcd
        simp only [lexCmp, hch]
        have hv : digitVal d < digitVal c := by unfold digitVal; omega
        symm
        rw [natCmp_eq_gt]
        have hrb := digitsToNat_lt hb.2
        calc digitsToNat (d :: ds)
            = digitVal d * 10 ^ ds.length + digitsToNat ds := rfl
          _ < digitVal d * 10 ^ ds.length + 10 ^ ds.length :=
              Nat.add_lt_add_left hrb _
          _ = (digitVal d + 1) * 10 ^ ds.length := by ring
          _ ≤ digitVal c * 10 ^ ds.length := Nat.mul_le_mul_right _ hv
          _ = digitVal c * 10 ^ cs.length := by rw [hlen']
          _ ≤ digitVal c * 10 ^ cs.length + digitsToNat cs :=
              Nat.le_add_right _ _
          _ = digitsToNat (c :: cs) := rfl

theorem preNumericCmp_eq {a b : List Char}
    (ha : a.all isDigitChar = true) (hb : b.all isDigitChar = true)
    (hna : a ≠ []) (hnb : b ≠ [])
    (h0a : a.head? = some '0' → a.length = 1)
    (h0b : b.head? = some '0' → b.length = 1) :
    (natCmp a.length b.length).then (lexCmp a b) =
      natCmp (digitsToNat a) (digitsToNat b) := by
  rcases Nat.lt_trichotomy a.length b.length with h | h | h
  · rw [natCmp_eq_lt.mpr h]
    show Ordering.lt = _
    symm
    rw [natCmp_eq_lt]
    cases b with
    | nil => exact absurd rfl hnb
    | cons d ds =>
      have hd0 : d ≠ '0' := by
        intro hd
        have h1 := h0b (by rw [hd]; rfl)
        have h2 : 1 ≤ a.length := List.length_pos.mpr hna
        rw [List.length_cons] at h h1
        omega
      have hlen : a.length ≤ ds.length := by
        rw [List.length_cons] at h
        omega
      calc digitsToNat a < 10 ^ a.length := digitsToNat_lt ha
        _ ≤ 10 ^ ds.length := Nat.pow_le_pow_right (by norm_num) hlen
        _ ≤ digitsToNat (d :: ds) := pow_le_digitsToNat hb hd0
  · rw [natCmp_eq_eq.mpr h]
    show lexCmp a b = _
    exact lexCmp_digits_eq_natCmp ha hb h
  · rw [natCmp_eq_gt.mpr h]
    show Ordering.gt = _
    symm
    rw [natCmp_eq_gt]
    cases a with
    | nil => exact absurd rfl hna
    | cons c cs =>
      have hc0 : c ≠ '0' := by
        intro hc
        have h1 := h0a (by rw [hc]; rfl)
        have h2 : 1 ≤ b.length := List.length_pos.mpr hnb
        rw [List.length_cons] at h h1
        omega
      have hlen : b.length ≤ cs.length := by
        rw [List.length_cons] at h
        omega
      calc digitsToNat b < 10 ^ b.length := digitsToNat_lt hb
        _ ≤ 10 ^ cs.length := Nat.pow_le_pow_right (by norm_num) hlen
        _ ≤ digitsToNat (c :: cs) := pow_le_digitsToNat ha hc0

theorem validPreId_facts {a : List Char} (h : validPreId a = true) :
    a ≠ [] ∧ (a.all isDigitChar = true → a.head? = some '0' →
      a.length = 1) := by
  unfold validPreId at h
  rw [Bool.and_eq_true, Bool.and_eq_true] at h
  constructor
  · simpa using h.1.1
  · intro hd h0
    have h2 := h.2
    rw [hd, if_pos rfl] at h2
    rcases Bool.or_eq_true _ _ |>.mp h2 with h3 | h3
    · simpa using h3
    · rw [h0] at h3
      simp at h3

theorem preIdCmp_eq_spec {a b : List Char}
    (ha : validPreId a = true) (hb : validPreId b = true) :
    preIdCmp a b = specPreIdCmp a b := by
  have hfa := validPreId_facts ha
  have hfb := validPreId_facts hb
  unfold preIdCmp specPreIdCmp
  cases hda : a.all isDigitChar <;> cases hdb : b.all isDigitChar
  · rfl
  · rfl
  · rfl
  · exact preNumericCmp_eq hda hdb hfa.1 hfb.1 (hfa.2 hda) (hfb.2 hdb)

theorem preListCmp_eq_spec : ∀ {xs ys : List (List Char)},
    xs.all validPreId = true → ys.all validPreId = true →
    preListCmp xs ys = specPreListCmp xs ys := by
  intro xs
  induction xs with
  | nil => intro ys _ _; cases ys <;> rfl
  | cons a xt ih =>
    intro ys hx hy
    cases ys with
    | nil => rfl
    | cons b yt =>
      rw [List.all_cons, Bool.and_eq_true] at hx hy
      have hid := preIdCmp_eq_spec hx.1 hy.1
      simp only [preListCmp, specPreListCmp, hid]
      cases specPreIdCmp a b <;> simp [ih hx.2 hy.2]

theorem preCmp_eq_spec {xs ys : List (List Char)}
    (hx : xs.all validPreId = true) (hy : ys.all validPreId = true) :
    preCmp xs ys = specPreCmp xs ys := by
  cases xs with
  | nil => cases ys <;> rfl
  | cons a xt =>
    cases ys with
    | nil => rfl
    | cons b yt =>
      show preListCmp _ _ = specPreListCmp _ _
      exact preListCmp_eq_spec hx hy

theorem parsePre_valid {l : List Char} {ids : List (List Char)}
    (h : parsePre l = some ids) : ids.all validPreId = true := by
  unfold parsePre at h
  split at h
  · cases h
    assumption
  · cases h

theorem parseVersion_pre_valid {s : List Char} {v : SemVersion}
    (h : parseVersion s = some v) : v.pre.all validPreId = true := by
  unfold parseVersion at h
  repeat' split at h
  all_goals cases h
  all_goals first
  | rfl
  | (apply parsePre_valid; assumption)

/-! ### Claims -/

/-- C10: for the same compare mode and the same normalized script outputs,
the check command and the update command (without force) compute the
identical update-needed decision: the two inline comparison blocks of
src/main.rs are the same function (byte inequality in String mode, semver
ordering after stripping remaining leading v characters in Semver mode). -/
theorem check_update_same_decision :
    ∀ (mode : CompareMode) (localVer remoteVer : List Char),
      checkComputeNeedsUpdate mode localVer remoteVer =
        updateComputeNeedsUpdate mode localVer remoteVer :=
  fun _ _ _ => rfl

/-- C7: when either input fails to parse as a semver, `needs_update` in
Semver mode returns an error whose message contains both input strings, and
never a boolean. -/
theorem needs_update_parse_failure_errors :
    ∀ l r : List Char,
      parseVersion l = none ∨ parseVersion r = none →
      needs_update .semver l r = .err (semverFailMsg l r) ∧
      occursIn l (semverFailMsg l r) ∧
      occursIn r (semverFailMsg l r) ∧
      ∀ b, needs_update .semver l r ≠ .ok b := by
  intro l r h
  have herr : needs_update .semver l r = .err (semverFailMsg l r) := by
    rcases h with h | h
    · simp [needs_update, h]
    · cases hl : parseVersion l <;> simp [needs_update, h, hl]
  refine ⟨herr, ?_, ?_, ?_⟩
  · exact ⟨"failed to parse semver (local: ".data,
      ", remote: ".data ++ r ++ ")".data, by
        simp [semverFailMsg, List.append_assoc]⟩
  · exact ⟨"failed to parse semver (local: ".data ++ l ++ ", remote: ".data,
      ")".data, by simp [semverFailMsg, List.append_assoc]⟩
  · intro b hb
    rw [herr] at hb
    cases hb

/-- C7 witness: `needs_update(Semver, "not-a-version", "1.0.0")` errors with
the message carrying both strings. -/
theorem needs_update_parse_failure_errors_witness :
    needs_update .semver "not-a-version".data "1.0.0".data =
      .err (semverFailMsg "not-a-version".data "1.0.0".data) :=
  (needs_update_parse_failure_errors "not-a-version".data "1.0.0".data
    (Or.inl (by decide))).1

/-- C4 counterexample: `trim_version` strips EVERY leading `v`, not at most
one: on `vv1.2.3` it returns `1.2.3`, not the `v1.2.3` the claim states. -/
theorem trim_version_single_v_cex :
    trim_version "vv1.2.3".data ≠ "v1.2.3".data ∧
      trim_version "vv1.2.3".data = "1.2.3".data := by
  constructor
  · decide
  · decide

/-- C4 amended: `trim_version` strips leading and trailing whitespace and
then strips every leading `v` character (so its result never starts with
`v`); in particular `vv1.2.3` becomes `1.2.3`, `v1.2.3\n` becomes `1.2.3`,
and `  v2.0.0  ` becomes `2.0.0`. -/
theorem trim_version_amended :
    trim_version "v1.2.3\n".data = "1.2.3".data ∧
    trim_version "  v2.0.0  ".data = "2.0.0".data ∧
    trim_version "vv1.2.3".data = "1.2.3".data ∧
    trim_version "abc123\n".data = "abc123".data ∧
    ∀ (s : List Char) (c : Char), (trim_version s).head? = some c →
      c ≠ 'v' := by
  refine ⟨by decide, by decide, by decide, by decide, ?_⟩
  intro s c hc
  rw [trim_version, trimStartMatchesChar] at hc
  have := head?_dropWhile_false hc
  simpa using this

/-- C4 amended witness: the head of a normalized version is never `v`. -/
theorem trim_version_amended_witness : ('1' : Char) ≠ 'v' :=
  trim_version_amended.2.2.2.2 "v1".data '1' (by decide)

/-- C5 counterexample: `trim_version` is not idempotent: on `v 1` it
returns ` 1` (stripping the `v` exposes a space), and a second application
returns `1`. -/
theorem trim_version_idempotent_cex :
    trim_version (trim_version "v 1".data) ≠ trim_version "v 1".data := by
  decide

/-- C5 amended: `trim_version` is idempotent on every string whose
normalization does not start with whitespace — that is, whenever stripping
the leading `v`s exposes no interior whitespace. On other strings a second
application trims further, as on `v 1`. -/
theorem trim_version_idempotent_amended :
    ∀ s : List Char, headNotWs (trim_version s) = true →
      trim_version (trim_version s) = trim_version s := by
  intro s hray
  have hhead : ∀ c, (trim_version s).head? = some c →
      isRustWhitespace c = false := by
    intro c hc
    cases hl : trim_version s with
    | nil => rw [hl] at hc; cases hc
    | cons d ds =>
      rw [hl] at hc
      have hdc : d = c := by simpa using hc
      rw [hl, headNotWs] at hray
      simp only [Bool.not_eq_true'] at hray
      rw [← hdc]
      exact hray
  have hlast : ∀ c, (trim_version s).getLast? = some c →
      isRustWhitespace c = false := by
    intro c hc
    rcases getLast?_dropWhile (fun d => d == 'v') (rustTrim s) with h | h
    · rw [trim_version, trimStartMatchesChar, h] at hc
      cases hc
    · rw [trim_version, trimStartMatchesChar, h] at hc
      rw [rustTrim, List.getLast?_reverse] at hc
      exact head?_dropWhile_false hc
  have h1 : (trim_version s).dropWhile isRustWhitespace = trim_version s :=
    dropWhile_eq_self_of_head hhead
  have h2 : ((trim_version s).reverse).dropWhile isRustWhitespace =
      (trim_version s).reverse := by
    apply dropWhile_eq_self_of_head
    intro c hc
    apply hlast
    have hg := List.getLast?_reverse (trim_version s).reverse
    rw [List.reverse_reverse] at hg
    rw [hg]
    exact hc
  have h3 : rustTrim (trim_version s) = trim_version s := by
    rw [rustTrim, h1, h2, List.reverse_reverse]
  have hv : ∀ c, (trim_version s).head? = some c → ((c == 'v') = false) := by
    intro c hc
    rw [trim_version, trimStartMatchesChar] at hc
    exact head?_dropWhile_false (p := fun d => d == 'v') hc
  have h4 : (trim_version s).dropWhile (fun d => d == 'v') =
      trim_version s := dropWhile_eq_self_of_head hv
  calc trim_version (trim_version s)
      = (rustTrim (trim_version s)).dropWhile (fun d => d == 'v') := rfl
    _ = (trim_version s).dropWhile (fun d => d == 'v') := by rw [h3]
    _ = trim_version s := h4

/-- C5 amended witness: idempotence at `v1`. -/
theorem trim_version_idempotent_amended_witness :
    trim_version (trim_version "v1".data) = trim_version "v1".data :=
  trim_version_idempotent_amended "v1".data (by decide)

/-- C3 counterexample: in the self-update flow the fetched release tag is
NOT fully normalized before parsing: only leading `v`s are stripped, no
whitespace trimming happens, so on tag `v1.2.3\n` the parsed string keeps
the trailing newline and differs from `trim_version` of the tag. -/
theorem selfupdate_normalization_cex :
    latestVersionParseInput "v1.2.3\n".data ≠
      trim_version "v1.2.3\n".data := by
  decide

/-- C3 amended: in the self-update flow the embedded current version is
parsed as-is (no normalization at all) and the release tag gets only
leading-`v` stripping (no whitespace trimming); these agree with full
normalization exactly when the tag carries no surrounding whitespace and
the embedded version is already fully normalized. -/
theorem selfupdate_normalization_amended :
    ∀ tag emb : List Char,
      rustTrim tag = tag → rustTrim emb = emb →
      trimStartMatchesChar 'v' emb = emb →
      latestVersionParseInput tag = trim_version tag ∧
        currentVersionParseInput emb = trim_version emb := by
  intro tag emb htag hemb hembv
  constructor
  · rw [trim_version, htag]
    rfl
  · rw [trim_version, hemb, hembv]
    rfl

/-- C3 amended witness: agreement on a whitespace-free tag and a fully
normalized embedded version. -/
theorem selfupdate_normalization_amended_witness :
    latestVersionParseInput "v1.0.0".data = trim_version "v1.0.0".data ∧
      currentVersionParseInput "0.1.0".data = trim_version "0.1.0".data :=
  selfupdate_normalization_amended "v1.0.0".data "0.1.0".data
    (by decide) (by decide) (by decide)

/-- C6 counterexample: `needs_update` in Semver mode follows the semver
crate ordering, which consults build metadata: `1.0.0+a` and `1.0.0+b` have
equal precedence under standard SemVer ordering (build metadata ignored),
yet the code answers `true`. -/
theorem needs_update_semver_build_metadata_cex :
    parseVersion "1.0.0+a".data = some ⟨1, 0, 0, [], ["a".data]⟩ ∧
    parseVersion "1.0.0+b".data = some ⟨1, 0, 0, [], ["b".data]⟩ ∧
    needs_update .semver "1.0.0+a".data "1.0.0+b".data = .ok true ∧
    specSemverLt ⟨1, 0, 0, [], ["a".data]⟩ ⟨1, 0, 0, [], ["b".data]⟩ =
      false := by
  refine ⟨by decide, by decide, by decide, by decide⟩

/-- C6 amended: for inputs that parse as semvers carrying no build
metadata, `needs_update(Semver, local, remote)` returns exactly `Ok(l < r)`
under standard SemVer precedence (so a local greater than remote yields
`false`); with build metadata present the crate breaks precedence ties by
build metadata instead of ignoring it. -/
theorem needs_update_semver_spec_order_amended :
    ∀ (l r : List Char) (lv rv : SemVersion),
      parseVersion l = some lv → parseVersion r = some rv →
      lv.build = [] → rv.build = [] →
      needs_update .semver l r = .ok (specSemverLt lv rv) := by
  intro l r lv rv hl hr hbl hbr
  have hvl := parseVersion_pre_valid hl
  have hvr := parseVersion_pre_valid hr
  have hcmp : versionCmp lv rv = specVersionCmp lv rv := by
    unfold versionCmp specVersionCmp
    rw [hbl, hbr]
    rw [show buildCmp [] [] = Ordering.eq from rfl, ordering_then_eq,
      preCmp_eq_spec hvl hvr]
  simp [needs_update, hl, hr, versionLt, specSemverLt, hcmp]

/-- C6 amended witness: a pre-release below its release, no build
metadata. -/
theorem needs_update_semver_spec_order_amended_witness :
    needs_update .semver c6LocalStr c6RemoteStr =
      .ok (specSemverLt c6LocalVer c6RemoteVer) ∧
    specSemverLt c6LocalVer c6RemoteVer = true :=
  ⟨needs_update_semver_spec_order_amended c6LocalStr c6RemoteStr c6LocalVer
      c6RemoteVer (by decide) (by decide) rfl rfl, by decide⟩

theorem runUpdateStep_trace (env : Env) (a : App) (tr : List (List Char)) :
    (runUpdateStep env a tr).2 = tr ++ [a.updateScript] := by
  unfold runUpdateStep
  cases env a.updateScript with
  | none => rfl
  | some res => by_cases h : res.exitCode = 0 <;> simp [h]

/-- C8: in the update loop without force, the local script runs first and
the remote one is not attempted when the local one fails (launch error or
nonzero exit); a local failure, remote failure, or semver parse failure
makes only that app fail; every trace starts with the local script; and the
loop processes each configured app independently of the others. -/
theorem update_loop_isolation :
    ∀ (env : Env) (a : App),
      (scriptFailed (env a.localScript) = true →
        processApp env false a = (.failedLocal, [a.localScript])) ∧
      (scriptFailed (env a.localScript) = false →
        scriptFailed (env a.remoteScript) = true →
        processApp env false a =
          (.failedRemote, [a.localScript, a.remoteScript])) ∧
      (∀ lr rr, env a.localScript = some lr → lr.exitCode = 0 →
        env a.remoteScript = some rr → rr.exitCode = 0 →
        updateComputeNeedsUpdate a.compareMode (trim_version lr.stdout)
          (trim_version rr.stdout) = none →
        processApp env false a =
          (.failedParse, [a.localScript, a.remoteScript])) ∧
      ((processApp env false a).2 = [a.localScript] ∨
        (processApp env false a).2 = [a.localScript, a.remoteScript] ∨
        (processApp env false a).2 =
          [a.localScript, a.remoteScript, a.updateScript]) ∧
      (∀ (filter : Option (List Char)) (apps : List App),
        processApps env false filter apps =
          apps.map (fun x => if matchesFilter filter x
            then processApp env false x else (.skipped, []))) := by
  intro env a
  refine ⟨?_, ?_, ?_, ?_, ?_⟩
  · intro h
    cases hl : env a.localScript with
    | none => simp [processApp, hl]
    | some res =>
      rw [hl] at h
      have hz : ¬ res.exitCode = 0 := by simpa [scriptFailed] using h
      simp [processApp, hl, hz]
  · intro h1 h2
    cases hl : env a.localScript with
    | none => rw [hl] at h1; simp [scriptFailed] at h1
    | some lres =>
      rw [hl] at h1
      have hz : lres.exitCode = 0 := by simpa [scriptFailed] using h1
      cases hr : env a.remoteScript with
      | none => simp [processApp, hl, hr, hz]
      | some rres =>
        rw [hr] at h2
        have hz2 : ¬ rres.exitCode = 0 := by simpa [scriptFailed] using h2
        simp [processApp, hl, hr, hz, hz2]
  · intro lr rr h1 h2 h3 h4 h5
    simp [processApp, h1, h2, h3, h4, h5]
  · rcases hl : env a.localScript with _ | lres
    · simp [processApp, hl]
    · by_cases hz : lres.exitCode = 0
      · rcases hr : env a.remoteScript with _ | rres
        · simp [processApp, hl, hz, hr]
        · by_cases hz2 : rres.exitCode = 0
          · rcases hn : updateComputeNeedsUpdate a.compareMode
                (trim_version lres.stdout) (trim_version rres.stdout)
              with _ | b
            · simp [processApp, hl, hz, hr, hz2, hn]
            · cases b
              · simp [processApp, hl, hz, hr, hz2, hn]
              · have ht := runUpdateStep_trace env a
                  [a.localScript, a.remoteScript]
                simp [processApp, hl, hz, hr, hz2, hn, ht]
          · simp [processApp, hl, hz, hr, hz2]
      · simp [processApp, hl, hz]
  · intro filter apps
    induction apps with
    | nil => rfl
    | cons x xs ih => simp [processApps, ih]

/-- C8 witness: a failing local script stops before the remote script, a
failing remote script fails the app after a clean local run, and garbage
output in Semver mode fails the app at the comparison — each as an isolated
per-app outcome. -/
theorem update_loop_isolation_witness :
    processApp envNone false wApp = (.failedLocal, [wApp.localScript]) ∧
    processApp envLocalOnly false wApp =
      (.failedRemote, [wApp.localScript, wApp.remoteScript]) ∧
    processApp envGarbage false wAppSem =
      (.failedParse, [wAppSem.localScript, wAppSem.remoteScript]) :=
  ⟨(update_loop_isolation envNone wApp).1 (by decide),
   (update_loop_isolation envLocalOnly wApp).2.1 (by decide) (by decide),
   (update_loop_isolation envGarbage wAppSem).2.2.1 ⟨"x".data, 0⟩
     ⟨"x".data, 0⟩ rfl rfl rfl rfl (by decide)⟩

/-- C9: with force set, the version scripts are never invoked (the trace is
exactly the update script), the update script always runs, and a zero exit
is reported as updated while a nonzero exit or launch failure is reported
as failed. -/
theorem update_force_bypass :
    ∀ (env : Env) (a : App),
      (processApp env true a).2 = [a.updateScript] ∧
      (∀ res, env a.updateScript = some res →
        processApp env true a =
          ((if res.exitCode = 0 then .updated else .failedUpdate),
            [a.updateScript])) ∧
      (env a.updateScript = none →
        processApp env true a = (.failedUpdate, [a.updateScript])) := by
  intro env a
  refine ⟨?_, ?_, ?_⟩
  · show (runUpdateStep env a []).2 = _
    rw [runUpdateStep_trace]
    rfl
  · intro res h
    show runUpdateStep env a [] = _
    by_cases hz : res.exitCode = 0 <;> simp [runUpdateStep, h, hz]
  · intro h
    show runUpdateStep env a [] = _
    simp [runUpdateStep, h]

/-- C9 witness: force with a zero-exit update script reports updated and
runs only the update script. -/
theorem update_force_bypass_witness :
    processApp envZero true wApp = (.updated, [wApp.updateScript]) := by
  have h := (update_force_bypass envZero wApp).2.1 ⟨[], 0⟩ rfl
  simpa using h

theorem fsUpdate_same (fs : FS) (p : List Char) (v : Option FsFile) :
    fsUpdate fs p v p = v := by
  simp [fsUpdate]

theorem fsUpdate_ne {q p : List Char} (h : q ≠ p) (fs : FS)
    (v : Option FsFile) : fsUpdate fs p v q = fs q := by
  simp [fsUpdate, h]

theorem cur_ne_backupPath (cur : List Char) : cur ≠ backupPath cur := by
  intro h
  have h2 := congrArg List.length h
  rw [backupPath, List.length_append] at h2
  have h7 : (".backup".data).length = 7 := by decide
  omega

theorem cur_ne_stagedPath (cur : List Char) : cur ≠ stagedPath cur := by
  intro h
  have h2 := congrArg List.length h
  rw [stagedPath, List.length_append] at h2
  have h4 : (".new".data).length = 4 := by decide
  omega

theorem backupPath_ne_stagedPath (cur : List Char) :
    backupPath cur ≠ stagedPath cur := by
  intro h
  rw [backupPath, stagedPath] at h
  exact absurd (List.append_cancel_left h) (by decide)

/-- C1: if `replace_binary` fails at any step before the final rename (the
backup copy, the staging copy, reading metadata, or setting permissions),
the file at the running executable path is unchanged; the staging prefix
(everything before the rename) never writes that path even on success, so
the rename is the only step of the protocol that mutates it; and any
erroring run of the whole protocol (the rename included) leaves the path
unchanged. -/
theorem replace_binary_prerename_preserves_executable :
    ∀ (fail : RBStep → Bool) (newp cur : List Char) (fs : FS),
      fsAt (replaceBinaryStage fail newp cur fs) cur = fs cur ∧
      (isErr (replace_binary fail newp cur fs) = true →
        fsAt (replace_binary fail newp cur fs) cur = fs cur) := by
  intro fail newp cur fs
  have hb : cur ≠ backupPath cur := cur_ne_backupPath cur
  have hs : cur ≠ stagedPath cur := cur_ne_stagedPath cur
  have hstage : fsAt (replaceBinaryStage fail newp cur fs) cur = fs cur := by
    unfold replaceBinaryStage
    repeat' split
    all_goals simp [fsAt, fsUpdate, hb, hs]
  refine ⟨hstage, ?_⟩
  intro herr
  unfold replace_binary at herr ⊢
  cases hst : replaceBinaryStage fail newp cur fs with
  | error e =>
    rw [hst] at hstage
    simpa [fsAt] using hstage
  | ok fs4 =>
    rw [hst] at hstage herr
    dsimp only at herr ⊢
    cases hsp : fs4 (stagedPath cur) with
    | none =>
      simpa [fsAt] using hstage
    | some h2 =>
      by_cases hf : fail .renameStep
      · simp only [hf, if_true]
        simpa [fsAt] using hstage
      · rw [hsp] at herr
        simp [hf, isErr] at herr

/-- C1 witness: on an empty filesystem the backup copy fails (the source is
missing) and the executable path is untouched. -/
theorem replace_binary_prerename_preserves_executable_witness :
    fsAt (replace_binary rbNoFail wNewPath wCurPath fsEmpty) wCurPath =
      fsEmpty wCurPath :=
  (replace_binary_prerename_preserves_executable rbNoFail wNewPath wCurPath
    fsEmpty).2 (by decide)

theorem replaceBinaryStage_ok {fail : RBStep → Bool}
    {newp cur : List Char} {fs fs4 : FS} {f g : FsFile}
    (hcur : fs cur = some f) (hnew : fs newp = some g)
    (hnb : newp ≠ backupPath cur)
    (hok : replaceBinaryStage fail newp cur fs = .ok fs4) :
    fs4 = fsUpdate (fsUpdate (fsUpdate (fsUpdate fs (backupPath cur) none)
      (backupPath cur) (some f)) (stagedPath cur) (some g)) (stagedPath cur)
      (some ⟨g.data, 0o755⟩) := by
  have hb : cur ≠ backupPath cur := cur_ne_backupPath cur
  have h1 : fsUpdate fs (backupPath cur) none cur = some f := by
    rw [fsUpdate_ne hb]; exact hcur
  have h2 : fsUpdate (fsUpdate fs (backupPath cur) none) (backupPath cur)
      (some f) newp = some g := by
    rw [fsUpdate_ne hnb, fsUpdate_ne hnb]; exact hnew
  have h3 : fsUpdate (fsUpdate (fsUpdate fs (backupPath cur) none)
      (backupPath cur) (some f)) (stagedPath cur) (some g)
      (stagedPath cur) = some g := fsUpdate_same _ _ _
  simp only [replaceBinaryStage, h1, h2, h3] at hok
  split at hok
  · cases hok
  · split at hok
    · cases hok
    · split at hok
      · cases hok
      · cases hok
        rfl

/-- C2: after a successful `replace_binary(new, cur)` (with the new binary
at a path distinct from the two staging paths), the backup file exists with
the executable's pre-call bytes, the executable path holds exactly the new
binary's bytes, and no staged `.new` file remains. -/
theorem replace_binary_success_postcondition :
    ∀ (fail : RBStep → Bool) (newp cur : List Char) (fs : FS)
      (f g : FsFile) (fsFinal : FS),
      fs cur = some f → fs newp = some g →
      newp ≠ backupPath cur → newp ≠ stagedPath cur →
      replace_binary fail newp cur fs = .ok fsFinal →
      Option.map FsFile.data (fsFinal (backupPath cur)) = some f.data ∧
      Option.map FsFile.data (fsFinal cur) = some g.data ∧
      fsFinal (stagedPath cur) = none := by
  intro fail newp cur fs f g fsF hcur hnew hnb hns hok
  have hb : cur ≠ backupPath cur := cur_ne_backupPath cur
  have hs : cur ≠ stagedPath cur := cur_ne_stagedPath cur
  have hbs : backupPath cur ≠ stagedPath cur := backupPath_ne_stagedPath cur
  unfold replace_binary at hok
  cases hst : replaceBinaryStage fail newp cur fs with
  | error e =>
    rw [hst] at hok
    cases hok
  | ok fs4 =>
    rw [hst] at hok
    dsimp only at hok
    have h4 := replaceBinaryStage_ok hcur hnew hnb hst
    subst h4
    rw [fsUpdate_same] at hok
    dsimp only at hok
    split at hok
    · cases hok
    · cases hok
      refine ⟨?_, ?_, ?_⟩
      · simp [fsUpdate, Ne.symm hb, hbs]
      · simp [fsUpdate]
      · simp [fsUpdate, Ne.symm hs]

/-- C2 witness: a concrete successful replacement with no spurious
failures. -/
theorem replace_binary_success_postcondition_witness :
    Option.map FsFile.data
        (fsAt (replace_binary rbNoFail wNewPath wCurPath wFs)
          (backupPath wCurPath)) = some wOldFile.data ∧
    Option.map FsFile.data
        (fsAt (replace_binary rbNoFail wNewPath wCurPath wFs) wCurPath) =
      some wNewFile.data ∧
    fsAt (replace_binary rbNoFail wNewPath wCurPath wFs)
        (stagedPath wCurPath) = none := by
  have h := replace_binary_success_postcondition rbNoFail wNewPath wCurPath
    wFs wOldFile wNewFile _ (by decide) (by decide) (by decide) (by decide)
    rfl
  exact ⟨h.1, h.2.1, h.2.2⟩

end Uppies
